import Mathlib

/-!
Verification of the AI response implementation pipeline of the
smart-workplace repository (shell pipeline under scripts/ and scripts/lib/).

Strings manipulated by the shell scripts are modelled as `List Char`.
Filesystem state is modelled as an association list from paths to file
bytes.  Shell functions become Lean functions over these types; a bash
return code of 0 (success) becomes `true`/`some`, nonzero becomes
`false`/`none`.
-/

namespace SmartWorkplace

/-- Shorthand turning a Lean string literal into the `List Char` model. -/
def strL (s : String) : List Char := s.toList

/-- The newline character, written out once so the model reads clearly. -/
def newlineChar : Char := '\n'

/-- The backtick character (code-fence character of the markdown protocol). -/
def backtickChar : Char := Char.ofNat 96

/-- The single-quote character, stripped from parsed file paths. -/
def singleQuoteChar : Char := Char.ofNat 39

/-- Membership of the POSIX `[[:space:]]` class used by the bash regexes. -/
def isWsChar (c : Char) : Bool :=
  c = ' ' || c = '\t' || c = '\n' || c = '\r' || c = Char.ofNat 11 || c = Char.ofNat 12

/-- ASCII lowercasing, the effect of bash `${line,,}` on ASCII text. -/
def lowerChar (c : Char) : Char :=
  if 'A' ≤ c && c ≤ 'Z' then Char.ofNat (c.toNat + 32) else c

/-- Substring test, bash `[[ $hay == *"$needle"* ]]`. -/
def containsSub : List Char → List Char → Bool
  | [], needle => needle.isEmpty
  | c :: t, needle => needle.isPrefixOf (c :: t) || containsSub t needle

/-- First-occurrence literal replacement, bash `${content/"$search"/"$repl"}`. -/
def replaceFirst : List Char → List Char → List Char → List Char
  | [], search, repl => if search.isEmpty then repl else []
  | c :: t, search, repl =>
    if search.isPrefixOf (c :: t) then repl ++ (c :: t).drop search.length
    else c :: replaceFirst t search repl

/-- Drop every trailing newline, the effect of command substitution
`$(<file)` / `$(cat file)` on the captured bytes. -/
def stripTrailingNewlines (l : List Char) : List Char :=
  (l.reverse.dropWhile (fun c => c = newlineChar)).reverse

/-- Drop at most one trailing newline, bash `${var%$'\n'}`. -/
def stripOneTrailingNewline (l : List Char) : List Char :=
  match l.reverse with
  | c :: t => if c = newlineChar then t.reverse else l
  | [] => l

/-- Number of newline characters at the very end of the text. -/
def trailingNewlineCount (l : List Char) : Nat :=
  (l.reverse.takeWhile (fun c => c = newlineChar)).length

/-- Split a string into the lines a `while IFS= read -r line` loop over a
here-string sees; this coincides with splitting on the newline character. -/
def splitLinesAux : List Char → List Char → List (List Char)
  | [], cur => [cur.reverse]
  | c :: rest, cur =>
    if c = newlineChar then cur.reverse :: splitLinesAux rest []
    else splitLinesAux rest (c :: cur)

/-- All lines of a text, in order. -/
def splitLines (l : List Char) : List (List Char) :=
  splitLinesAux l []

/-- Join lines back with newline separators (used to model `head -n`). -/
def joinLines : List (List Char) → List Char
  | [] => []
  | [l] => l
  | l :: ls => l ++ [newlineChar] ++ joinLines ls

/-! ## scripts/lib/file-operations.sh -/

/-- Bash regex `^[[:space:]]*marker[[:space:]]*$` applied to the lowercased
line, for a marker made of non-space characters. -/
def lineIsMarker (marker line : List Char) : Bool :=
  let l := (line.map lowerChar).dropWhile isWsChar
  marker.isPrefixOf l && (l.drop marker.length).all isWsChar

/-- The `SEARCH:` section marker (compared lowercased). -/
def searchMarker : List Char := strL "search:"

/-- The `REPLACE:` section marker (compared lowercased). -/
def replaceSectionMarker : List Char := strL "replace:"

/-- Parser state of the SEARCH/REPLACE loop in `apply_edit_operation`. -/
structure EditParseState where
  searchAcc : List Char
  replAcc : List Char
  inSearch : Bool
  inRepl : Bool

/-- One iteration of the SEARCH/REPLACE parsing loop. -/
def parseEditLine (st : EditParseState) (line : List Char) : EditParseState :=
  if lineIsMarker searchMarker line then
    { st with inSearch := true, inRepl := false }
  else if lineIsMarker replaceSectionMarker line then
    { st with inSearch := false, inRepl := true }
  else if st.inSearch then
    { st with searchAcc := st.searchAcc ++ line ++ [newlineChar] }
  else if st.inRepl then
    { st with replAcc := st.replAcc ++ line ++ [newlineChar] }
  else st

/-- Parse an edit block's lines into `(search_text, replace_text)`,
including the final single-trailing-newline strip of the source. -/
def parseEditContent (lines : List (List Char)) : List Char × List Char :=
  let st := lines.foldl parseEditLine ⟨[], [], false, false⟩
  (stripOneTrailingNewline st.searchAcc, stripOneTrailingNewline st.replAcc)

/-- The 1 MB ceiling checked by `apply_edit_operation` (1048576 bytes). -/
def MAX_EDIT_FILE_SIZE : Nat := 1048576

/-- `apply_edit_operation file_path edit_content`.  The target file is
`none` when it does not exist, otherwise `some bytes`.  Returns the
resulting file state together with the success flag; on failure the file
is left exactly as it was.  A successful edit writes
`echo "$file_content" > tmp; mv tmp file`, i.e. the replaced content plus
one newline. -/
def apply_edit_operation (editLines : List (List Char)) (file : Option (List Char)) :
    Option (List Char) × Bool :=
  let p := parseEditContent editLines
  if p.1.isEmpty then (file, false)
  else
    match file with
    | none => (none, false)
    | some bytes =>
      if MAX_EDIT_FILE_SIZE < bytes.length then (some bytes, false)
      else
        let content := stripTrailingNewlines bytes
        if containsSub content p.1 then
          (some (replaceFirst content p.1 p.2 ++ [newlineChar]), true)
        else (some bytes, false)

/-- `create_or_update_file` content transformation: strip one trailing
newline, then `printf '%s\n'`. -/
def create_or_update_file (content : List Char) : List Char :=
  stripOneTrailingNewline content ++ [newlineChar]

/-- The `../` traversal pattern of the security regex. -/
def dotdotSlash : List Char := strL "../"

/-- The `..\` traversal pattern of the security regex. -/
def dotdotBackslash : List Char := strL "..\\"

/-- The literal language token that marks an edit block. -/
def editLang : List Char := strL "edit"

/-- Bash regex `\.\./|\.\.\\` over the raw path. -/
def hasTraversal (p : List Char) : Bool :=
  containsSub p dotdotSlash || containsSub p dotdotBackslash

/-- Bash glob `/*`: the path begins with a slash. -/
def isAbsolutePath (p : List Char) : Bool :=
  match p with
  | '/' :: _ => true
  | _ => false

/-- Bash regex `^temp_|^tmp_|\.tmp$|\.temp$`. -/
def isTempPath (p : List Char) : Bool :=
  (strL "temp_").isPrefixOf p || (strL "tmp_").isPrefixOf p ||
    (strL ".tmp").isSuffixOf p || (strL ".temp").isSuffixOf p

/-- Bash regex `\.(sh|bash|exe|bin|bat|cmd|ps1|pl|rb)$`. -/
def hasExecutableExt (p : List Char) : Bool :=
  [strL ".sh", strL ".bash", strL ".exe", strL ".bin", strL ".bat",
    strL ".cmd", strL ".ps1", strL ".pl", strL ".rb"].any
    (fun s => s.isSuffixOf p)

/-- `validate_file_path_security file_path block_language`.  The first
check canonicalizes with `realpath -m` and compares against `$PWD`; that
filesystem-dependent outcome is supplied as the boolean
`canonicalEscapes`.  The remaining checks are the literal regex checks of
the source, in source order. -/
def validate_file_path_security (canonicalEscapes : Bool) (path lang : List Char) : Bool :=
  if canonicalEscapes then false
  else if hasTraversal path then false
  else if isAbsolutePath path then false
  else if isTempPath path then false
  else if hasExecutableExt path && !(lang == editLang) then false
  else true

/-! ## scripts/lib/memory-integration.sh (cache lookup) -/

/-- A cached file entry as written by `cache_file_content`: the recorded
source mtime, the wall-clock time the entry was written, and the payload. -/
structure CacheEntry where
  file_mtime : Nat
  cached_at : Nat
  content : List Char

/-- `load_cached_file_content`: a missing cache file is a miss; an entry
whose recorded mtime is older than the source file's current mtime is a
miss (`[[ $file_mtime -gt $cached_mtime ]]`); otherwise the cached
content is returned.  The write time of the entry is never consulted. -/
def load_cached_file_content (entry : Option CacheEntry) (fileMtime : Nat) :
    Option (List Char) :=
  match entry with
  | none => none
  | some e => if e.file_mtime < fileMtime then none else some e.content

/-! ## scripts/lib/prerequisite-validation.sh -/

/-- Return code for a fully successful validation run. -/
def VALIDATION_SUCCESS : Nat := 0

/-- Return code when at least one error was recorded. -/
def VALIDATION_CRITICAL_FAILURE : Nat := 1

/-- Return code when only warnings (no errors) were recorded. -/
def VALIDATION_WARNING : Nat := 2

/-- The result computation at the end of `validate_all_prerequisites`,
as a function of the sizes of `VALIDATION_ERRORS` and
`VALIDATION_WARNINGS` after all checks ran. -/
def validate_all_prerequisites_rc (errorCount warningCount : Nat) : Nat :=
  if 0 < errorCount then VALIDATION_CRITICAL_FAILURE
  else if 0 < warningCount then VALIDATION_WARNING
  else VALIDATION_SUCCESS

/-- The guard in `main`: `if ! validate_all_prerequisites ...; then exit 1`.
Bash treats every nonzero return code as failure, so the pipeline aborts
exactly when the return code is nonzero. -/
def main_aborts_on_prerequisites (errorCount warningCount : Nat) : Bool :=
  !(validate_all_prerequisites_rc errorCount warningCount == 0)

/-! ## scripts/lib/smart-file-parser.sh (context digest size handling) -/

/-- The marker appended by `generate_smart_file_context` when it cuts the
context.  The `\n` sequences are literal backslash-n pairs: they appear
inside double quotes and the function prints with plain `echo`. -/
def truncationMarker : List Char :=
  strL "\\n\\n... [Content truncated to fit context limits]"

/-- The final size handling of `generate_smart_file_context`:
`if [[ ${#context} -gt $max_context_size ]]` then
`context="${context:0:$max_context_size}<marker>"`. -/
def generate_smart_file_context_final (context : List Char) (maxContextSize : Nat) :
    List Char :=
  if maxContextSize < context.length then
    context.take maxContextSize ++ truncationMarker
  else context

/-- The `*)` (non-markdown, non-json) branch of
`generate_smart_file_context`, composed with the final size handling.
Small files (`wc -c` result below 1000) embed the full captured content,
larger ones the first 15 lines; command substitution strips trailing
newlines from the captured text. -/
def generate_smart_file_context_defaultBranch (filePath bytes : List Char)
    (maxContextSize : Nat) : List Char :=
  let fenceL : List Char := [backtickChar, backtickChar, backtickChar]
  let context :=
    if bytes.length < 1000 then
      strL "\\n### Full Content of " ++ [backtickChar] ++ filePath ++
        [backtickChar] ++ strL ":\\n" ++ fenceL ++ strL "\\n" ++
        stripTrailingNewlines bytes ++ strL "\\n" ++ fenceL ++ strL "\\n"
    else
      strL "\\n### Content Preview of " ++ [backtickChar] ++ filePath ++
        [backtickChar] ++ strL " (first 15 lines):\\n" ++ fenceL ++ strL "\\n" ++
        stripTrailingNewlines (joinLines ((splitLines bytes).take 15)) ++
        strL "\\n" ++ fenceL ++ strL "\\n"
  generate_smart_file_context_final context maxContextSize

/-! ## scripts/execute-ai-task.sh (response parsing and application) -/

/-- Character class `[a-zA-Z0-9_+.-]` of the fence-line regexes. -/
def isLangChar (c : Char) : Bool :=
  c.isAlpha || c.isDigit || c = '_' || c = '+' || c = '.' || c = '-'

/-- First character class `[a-zA-Z_]` of the python identifier regex. -/
def isIdentStart (c : Char) : Bool :=
  c.isAlpha || c = '_'

/-- Continuation class `[a-zA-Z0-9_]` of the python identifier regex. -/
def isIdentChar (c : Char) : Bool :=
  c.isAlpha || c.isDigit || c = '_'

/-- Trim leading and trailing `[[:space:]]` characters. -/
def trimWs (l : List Char) : List Char :=
  ((l.dropWhile isWsChar).reverse.dropWhile isWsChar).reverse

/-- Quote characters stripped from a parsed file path (`'`, `"`, backtick). -/
def isQuoteChar (c : Char) : Bool :=
  c = singleQuoteChar || c = '"' || c = backtickChar

/-- The path cleanup sed: trim whitespace, then strip leading and trailing
runs of quote characters. -/
def cleanPath (p : List Char) : List Char :=
  (((trimWs p).dropWhile isQuoteChar).reverse.dropWhile isQuoteChar).reverse

/-- Split the trimmed `lang_and_path` text, mirroring the two regexes
`^([a-zA-Z0-9_+.-]+)[[:space:]]+(.+)$` and `^([a-zA-Z0-9_+.-]+)$`;
anything else yields the generic `("", "")`. -/
def splitLangPath (t : List Char) : List Char × List Char :=
  let l1 := t.takeWhile isLangChar
  let r := t.dropWhile isLangChar
  if l1.isEmpty then ([], [])
  else if r.isEmpty then (l1, [])
  else
    let ws := r.takeWhile isWsChar
    let p := r.dropWhile isWsChar
    if !ws.isEmpty && !p.isEmpty then (l1, cleanPath p) else ([], [])

/-- The three-backtick fence that opens and closes blocks. -/
def fenceL : List Char := [backtickChar, backtickChar, backtickChar]

/-- Match a fence-open line
(`^\x60\x60\x60([[:space:]]*[a-zA-Z0-9_+.-]*)[[:space:]]*(.*)$`) and
produce the `(block_language, current_file)` pair the source assigns.
Any line starting with three backticks matches (all groups may be empty). -/
def parseFenceOpen (line : List Char) : Option (List Char × List Char) :=
  if fenceL.isPrefixOf line then
    let rest := line.drop 3
    let ws1 := rest.takeWhile isWsChar
    let afterWs := rest.dropWhile isWsChar
    let langRaw := afterWs.takeWhile isLangChar
    let afterLang := afterWs.dropWhile isLangChar
    let g2 := afterLang.dropWhile isWsChar
    some (splitLangPath (trimWs ((ws1 ++ langRaw) ++ [' '] ++ g2)))
  else none

/-- The literal `def` keyword of the python inference regex. -/
def defKeyword : List Char := strL "def"

/-- Try the python regex `def[[:space:]]+([a-zA-Z_][a-zA-Z0-9_]*)` at the
start of the text. -/
def pyDefNameAt (l : List Char) : Option (List Char) :=
  if defKeyword.isPrefixOf l then
    let r := l.drop 3
    let r2 := r.dropWhile isWsChar
    if r2.length < r.length then
      match r2 with
      | [] => none
      | c :: cs => if isIdentStart c then some (c :: cs.takeWhile isIdentChar) else none
    else none
  else none

/-- Leftmost match of the python function-name regex over the content. -/
def pyDefName : List Char → Option (List Char)
  | [] => none
  | c :: t =>
    match pyDefNameAt (c :: t) with
    | some n => some n
    | none => pyDefName t

/-- The quoted `"name"` key of the json inference regex. -/
def nameKeyLit : List Char := strL "\"name\""

/-- Bash regex `\"name\"[[:space:]]*:` over the block content. -/
def jsonHasNameKey : List Char → Bool
  | [] => false
  | c :: t =>
    (nameKeyLit.isPrefixOf (c :: t) &&
      (((c :: t).drop nameKeyLit.length).dropWhile isWsChar).head? == some ':') ||
    jsonHasNameKey t

/-- Path inference for a path-less block, the `case "$block_language"`
switch.  Shell languages and everything not listed infer nothing. -/
def inferPath (lang content : List Char) : Option (List Char) :=
  if lang == strL "python" || lang == strL "py" then
    some (match pyDefName content with
      | some n => n ++ strL ".py"
      | none => strL "main.py")
  else if lang == strL "javascript" || lang == strL "js" then
    some (strL "script.js")
  else if lang == strL "json" then
    some (if jsonHasNameKey content then strL "package.json" else strL "config.json")
  else if lang == strL "yaml" || lang == strL "yml" then
    some (strL "config.yml")
  else if lang == strL "markdown" || lang == strL "md" then
    some (strL "README.md")
  else none

/-- The languages for which `inferPath` can produce a path. -/
def inferableLangs : List (List Char) :=
  [strL "python", strL "py", strL "javascript", strL "js", strL "json",
    strL "yaml", strL "yml", strL "markdown", strL "md"]

/-- A code block the extraction loop decided to hand to the executor. -/
structure CodeBlockOp where
  path : List Char
  language : List Char
  content : List Char
deriving DecidableEq

/-- Extraction-loop state: inside-a-block flag, pending file path,
accumulated content and block language. -/
structure PState where
  inBlock : Bool
  file : List Char
  content : List Char
  lang : List Char

/-- The state at the top of the loop and after each emitted block. -/
def initPState : PState := ⟨false, [], [], []⟩

/-- The file path in effect at a fence-close line: inferred when the
block has content and a language but no path, otherwise the parsed one. -/
def closeFile1 (st : PState) : List Char :=
  if st.file.isEmpty && !st.content.isEmpty && !st.lang.isEmpty then
    (inferPath st.lang st.content).getD []
  else st.file

/-- What happens at a fence-close line: emit the block if a path (parsed
or inferred) and content are both present. -/
def closeEmit (st : PState) : Option CodeBlockOp :=
  if !(closeFile1 st).isEmpty && !st.content.isEmpty then
    some ⟨closeFile1 st, st.lang, st.content⟩
  else none

/-- One iteration of the extraction loop over a response line.  The
fence-close test runs first (only inside a block); a fence-open line is
recognized even inside a block, restarting the accumulator, exactly as in
the source. -/
def stepLine (st : PState) (line : List Char) : PState × Option CodeBlockOp :=
  if st.inBlock && line == fenceL then (initPState, closeEmit st)
  else
    match parseFenceOpen line with
    | some lp => ({ inBlock := true, file := lp.2, content := [], lang := lp.1 }, none)
    | none =>
      if st.inBlock then
        ({ st with content := st.content ++ line ++ [newlineChar] }, none)
      else (st, none)

/-- Fold step collecting emitted blocks in encounter order. -/
def extractStep (acc : PState × List CodeBlockOp) (line : List Char) :
    PState × List CodeBlockOp :=
  let r := stepLine acc.1 line
  (r.1, acc.2 ++ r.2.toList)

/-- All blocks the extraction loop hands to validation/execution, for a
response given as its list of lines. -/
def extractOps (lines : List (List Char)) : List CodeBlockOp :=
  (lines.foldl extractStep (initPState, [])).2

/-- Filesystem model: association list from path to file bytes. -/
abbrev FS := List (List Char × List Char)

/-- Read a file (`none` when it does not exist). -/
def fsGet (fs : FS) (p : List Char) : Option (List Char) :=
  match fs.find? (fun e => e.1 == p) with
  | some e => some e.2
  | none => none

/-- Create or overwrite a file. -/
def fsSet : FS → List Char → List Char → FS
  | [], p, v => [(p, v)]
  | e :: t, p, v => if e.1 == p then (p, v) :: t else e :: fsSet t p v

/-- Apply one extracted block: security validation, then either the edit
path or the create/overwrite path.  `canonEsc` supplies, per path, the
outcome of the `realpath`-vs-workspace check.  Returns the new filesystem
and whether the block changed anything (`changes_made`). -/
def applyOp (canonEsc : List Char → Bool) (fs : FS) (op : CodeBlockOp) : FS × Bool :=
  if validate_file_path_security (canonEsc op.path) op.path op.language then
    if op.language == editLang then
      match apply_edit_operation (splitLines op.content) (fsGet fs op.path) with
      | (some b, true) => (fsSet fs op.path b, true)
      | _ => (fs, false)
    else (fsSet fs op.path (create_or_update_file op.content), true)
  else (fs, false)

/-- Apply the blocks in order, accumulating the `changes_made` flag. -/
def applyOps (canonEsc : List Char → Bool) (fs : FS) (ops : List CodeBlockOp) :
    FS × Bool :=
  ops.foldl (fun acc op =>
    let r := applyOp canonEsc acc.1 op
    (r.1, acc.2 || r.2)) (fs, false)

/-- `implement_code_blocks_from_response`: extraction loop plus per-block
application; success means at least one block was applied. -/
def implement_code_blocks_from_response (canonEsc : List Char → Bool) (fs : FS)
    (response : List Char) : FS × Bool :=
  applyOps canonEsc fs (extractOps (splitLines response))

/-- The literal sentinel answer of the reformat prompt. -/
def NO_CHANGES_SPECIFIED : List Char := strL "NO_CHANGES_SPECIFIED"

/-- `process_text_based_response`: one reformat call to the generation
backend (its outcome supplied as `reformatResult`, `none` for an API
failure), then re-extraction of the reformatted text unless the backend
answered with the sentinel or an empty string. -/
def process_text_based_response (canonEsc : List Char → Bool) (fs : FS)
    (reformatResult : Option (List Char)) : FS × Bool :=
  match reformatResult with
  | some r =>
    if !(r == NO_CHANGES_SPECIFIED) && !r.isEmpty then
      implement_code_blocks_from_response canonEsc fs r
    else (fs, false)
  | none => (fs, false)

/-- The response-size ceiling of `process_ai_response` (50000 chars). -/
def MAX_RESPONSE_SIZE : Nat := 50000

/-- `process_ai_response`: truncate the response, run the extraction and
application pass, fall back to exactly one reformat re-submission when it
made no changes, then report success iff the filesystem differs from its
state at entry (the `git diff` check).  The second result component is
`(success flag, number of reformat calls made)`. -/
def process_ai_response (canonEsc : List Char → Bool) (fs : FS) (response : List Char)
    (reformatResult : Option (List Char)) : FS × (Bool × Nat) :=
  let response1 := response.take MAX_RESPONSE_SIZE
  let r1 := implement_code_blocks_from_response canonEsc fs response1
  let r2 :=
    if r1.2 then (r1.1, 0)
    else ((process_text_based_response canonEsc r1.1 reformatResult).1, 1)
  (r2.1, (!(decide (r2.1 = fs)), r2.2))

/-- The tail of `main`: exit code 1 when `process_ai_response` failed, and
the `has_changes` output derived from the same filesystem comparison. -/
def main_after_response (canonEsc : List Char → Bool) (fs : FS) (response : List Char)
    (reformatResult : Option (List Char)) : Nat × Bool :=
  let r := process_ai_response canonEsc fs response reformatResult
  ((if r.2.1 then 0 else 1), !(decide (r.1 = fs)))

/-! ## Helper lemmas -/

theorem isPrefixOf_append_self (l t : List Char) : l.isPrefixOf (l ++ t) = true := by
  induction l with
  | nil => cases t <;> rfl
  | cons c cs ih => simp [List.isPrefixOf, ih]

theorem containsSub_nil_right (l : List Char) : containsSub l [] = true := by
  cases l <;> simp [containsSub]

theorem containsSub_append_mid (pre s suf : List Char) :
    containsSub (pre ++ (s ++ suf)) s = true := by
  induction pre with
  | nil =>
    cases s with
    | nil => simpa using containsSub_nil_right suf
    | cons a s' => simp [containsSub, isPrefixOf_append_self]
  | cons c pre' ih => simp [containsSub, ih]

theorem replaceFirst_first_occurrence (pre s suf r : List Char) (hne : s ≠ [])
    (hfirst : ∀ i, i < pre.length → s.isPrefixOf ((pre ++ (s ++ suf)).drop i) = false) :
    replaceFirst (pre ++ (s ++ suf)) s r = pre ++ (r ++ suf) := by
  induction pre with
  | nil =>
    cases s with
    | nil => exact absurd rfl hne
    | cons a s' =>
      have h1 : (a :: s').isPrefixOf ((a :: s') ++ suf) = true := isPrefixOf_append_self _ _
      have h2 : ((a :: s') ++ suf).drop (a :: s').length = suf := List.drop_left _ _
      simp only [List.nil_append, List.cons_append] at h1 h2 ⊢
      simp [replaceFirst, h1, h2]
  | cons c pre' ih =>
    have h0 := hfirst 0 (by simp)
    rw [List.drop_zero, List.cons_append] at h0
    have step : replaceFirst ((c :: pre') ++ (s ++ suf)) s r
        = c :: replaceFirst (pre' ++ (s ++ suf)) s r := by
      show replaceFirst (c :: (pre' ++ (s ++ suf))) s r = _
      simp [replaceFirst, h0]
    rw [step, List.cons_append]
    refine congrArg (List.cons c) (ih ?_)
    intro i hi
    have h := hfirst (i + 1) (by simpa using Nat.succ_lt_succ hi)
    rw [List.cons_append, List.drop_succ_cons] at h
    exact h

theorem trailingNewlineCount_append_newline (l : List Char) :
    trailingNewlineCount (l ++ [newlineChar]) = trailingNewlineCount l + 1 := by
  simp [trailingNewlineCount, List.reverse_append, List.takeWhile_cons]

/-! ## Claim theorems -/

/-- Claim C1: every path containing a parent-directory segment (`../` or
`..\`) or beginning with `/` is rejected by `validate_file_path_security`
whatever the block language (including `edit`) and whatever the
canonicalization check concluded, and consequently the block executor
leaves the filesystem untouched for such a path. -/
theorem validate_path_rejects_traversal_and_absolute :
    (∀ (canonicalEscapes : Bool) (path lang : List Char),
      (hasTraversal path || isAbsolutePath path) = true →
      validate_file_path_security canonicalEscapes path lang = false) ∧
    (∀ (canonEsc : List Char → Bool) (fs : FS) (op : CodeBlockOp),
      (hasTraversal op.path || isAbsolutePath op.path) = true →
      applyOp canonEsc fs op = (fs, false)) := by
  have h1 : ∀ (ce : Bool) (path lang : List Char),
      (hasTraversal path || isAbsolutePath path) = true →
      validate_file_path_security ce path lang = false := by
    intro ce path lang h
    cases ce with
    | true => simp [validate_file_path_security]
    | false =>
      cases htr : hasTraversal path with
      | true => simp [validate_file_path_security, htr]
      | false =>
        cases ha : isAbsolutePath path with
        | true => simp [validate_file_path_security, htr, ha]
        | false => rw [htr, ha] at h; simp at h
  refine ⟨h1, ?_⟩
  intro canonEsc fs op h
  simp [applyOp, h1 (canonEsc op.path) op.path op.language h]

/-- Witness for C1: the traversal path `../etc/passwd` is rejected even
for an `edit` block, and an absolute-path block leaves the filesystem
unchanged. -/
theorem validate_path_rejects_traversal_and_absolute_witness :
    validate_file_path_security false (strL "../etc/passwd") (strL "edit") = false ∧
    applyOp (fun _ => false) [] ⟨strL "/etc/cron.d/job", strL "md", strL "x"⟩ = ([], false) :=
  ⟨validate_path_rejects_traversal_and_absolute.1 false (strL "../etc/passwd")
      (strL "edit") (by decide),
    validate_path_rejects_traversal_and_absolute.2 (fun _ => false) []
      ⟨strL "/etc/cron.d/job", strL "md", strL "x"⟩ (by decide)⟩

/-- Claim C5: a cached file entry whose recorded source mtime is strictly
older than the file's current mtime is a miss, whatever the entry's write
time (there is no recency condition in the lookup). -/
theorem cache_miss_on_newer_mtime (entry : CacheEntry) (fileMtime : Nat)
    (h : entry.file_mtime < fileMtime) :
    load_cached_file_content (some entry) fileMtime = none := by
  simp [load_cached_file_content, h]

/-- Witness for C5: an entry written very recently (large `cached_at`)
with recorded mtime 5 misses once the source mtime is 6. -/
theorem cache_miss_on_newer_mtime_witness :
    load_cached_file_content (some ⟨5, 1000000, strL "cached"⟩) 6 = none :=
  cache_miss_on_newer_mtime ⟨5, 1000000, strL "cached"⟩ 6 (by decide)

/-- Claim C6 (code evaluation at the failing input): a validation run
with zero errors and one warning returns `VALIDATION_WARNING` (2), and
`main`'s `if ! validate_all_prerequisites` guard treats that nonzero code
as failure and aborts — contradicting the claim that warnings are
non-blocking.  With an error the pipeline aborts, with a clean run it
proceeds. -/
theorem prerequisite_warning_blocks_pipeline :
    validate_all_prerequisites_rc 0 1 = VALIDATION_WARNING ∧
    main_aborts_on_prerequisites 0 1 = true ∧
    main_aborts_on_prerequisites 1 0 = true ∧
    main_aborts_on_prerequisites 0 0 = false := by decide

/-- Claim C7 (amended): the context digest never exceeds
`maxContextSize` plus the length of the truncation marker; whenever the
built context is cut, the result is exactly the first `maxContextSize`
characters followed by the appended marker. -/
theorem smart_context_bounded_with_marker (context : List Char) (maxContextSize : Nat) :
    (generate_smart_file_context_final context maxContextSize).length ≤
      maxContextSize + truncationMarker.length ∧
    (maxContextSize < context.length →
      generate_smart_file_context_final context maxContextSize =
        context.take maxContextSize ++ truncationMarker) := by
  unfold generate_smart_file_context_final
  by_cases h : maxContextSize < context.length
  · rw [if_pos h]
    refine ⟨?_, fun _ => rfl⟩
    rw [List.length_append, List.length_take]
    have hm : min maxContextSize context.length = maxContextSize :=
      Nat.min_eq_left (Nat.le_of_lt h)
    omega
  · rw [if_neg h]
    exact ⟨by omega, fun hc => absurd hc h⟩

/-- Witness for C7 (amended), at a context of length 6 and bound 3. -/
theorem smart_context_bounded_with_marker_witness :
    (generate_smart_file_context_final (strL "abcdef") 3).length ≤
      3 + truncationMarker.length ∧
    generate_smart_file_context_final (strL "abcdef") 3 =
      (strL "abcdef").take 3 ++ truncationMarker :=
  ⟨(smart_context_bounded_with_marker (strL "abcdef") 3).1,
    (smart_context_bounded_with_marker (strL "abcdef") 3).2 (by decide)⟩

/-- Counterexample for C7 as stated: for the file `a.txt` with content
`hello world` and bound `maxBytes = 5`, the digest built by the default
branch of `generate_smart_file_context` is 54 characters long — the
truncation marker is appended after the cut, so the result exceeds
`maxBytes`. -/
theorem smart_context_exceeds_maxBytes :
    5 < (generate_smart_file_context_defaultBranch (strL "a.txt") (strL "hello world") 5).length ∧
    truncationMarker.isSuffixOf
      (generate_smart_file_context_defaultBranch (strL "a.txt") (strL "hello world") 5) = true := by
  decide

/-- Claim C2: when the loaded file content decomposes as
`pre ++ search ++ suf` with the occurrence after `pre` the first one
(no occurrence starts inside `pre`) and at least one further occurrence
inside `suf`, a successful edit rewrites exactly that first occurrence
and leaves `suf` — and the later occurrences inside it — intact. -/
theorem edit_replaces_only_first_occurrence
    (editLines : List (List Char)) (bytes pre s suf r : List Char)
    (hne : s ≠ [])
    (hparse : parseEditContent editLines = (s, r))
    (hsize : bytes.length ≤ MAX_EDIT_FILE_SIZE)
    (hcontent : stripTrailingNewlines bytes = pre ++ (s ++ suf))
    (hfirst : ∀ i, i < pre.length → s.isPrefixOf ((pre ++ (s ++ suf)).drop i) = false)
    (hlater : containsSub suf s = true) :
    apply_edit_operation editLines (some bytes) =
      (some ((pre ++ (r ++ suf)) ++ [newlineChar]), true) := by
  have hsE : s.isEmpty = false := by
    cases s with
    | nil => exact absurd rfl hne
    | cons a t => rfl
  have hnotlt : ¬ MAX_EDIT_FILE_SIZE < bytes.length := Nat.not_lt.mpr hsize
  have hcontains : containsSub (stripTrailingNewlines bytes) s = true := by
    rw [hcontent]; exact containsSub_append_mid pre s suf
  have hrepl : replaceFirst (stripTrailingNewlines bytes) s r = pre ++ (r ++ suf) := by
    rw [hcontent]; exact replaceFirst_first_occurrence pre s suf r hne hfirst
  simp [apply_edit_operation, hparse, hsE, hnotlt, hcontains, hrepl]

/-- Witness for C2: editing `AxAxA` with search `A`, replace `B` yields
content `BxAxA` (written back with the single appended newline). -/
theorem edit_replaces_only_first_occurrence_witness :
    apply_edit_operation [strL "SEARCH:", strL "A", strL "REPLACE:", strL "B"]
      (some (strL "AxAxA")) = (some (strL "BxAxA\n"), true) := by
  have h := edit_replaces_only_first_occurrence
    [strL "SEARCH:", strL "A", strL "REPLACE:", strL "B"]
    (strL "AxAxA") [] (strL "A") (strL "xAxA") (strL "B")
    (by decide) (by decide) (by decide) (by decide)
    (fun i hi => absurd hi (Nat.not_lt_zero i)) (by decide)
  exact h.trans (by decide)

/-- Claim C8 (amended): the edit operation fails exactly when the parsed
search text is empty, the target file does not exist, the file exceeds
the 1 MB ceiling, or the search text does not occur in the loaded
content (the file bytes with trailing newlines stripped, as
`$(<file)` loads them); and every failing edit leaves the target file
unchanged. -/
theorem apply_edit_failure_conditions (editLines : List (List Char))
    (file : Option (List Char)) :
    ((apply_edit_operation editLines file).2 = false ↔
      (parseEditContent editLines).1 = [] ∨
      file = none ∨
      (∃ bytes, file = some bytes ∧ MAX_EDIT_FILE_SIZE < bytes.length) ∨
      (∃ bytes, file = some bytes ∧
        containsSub (stripTrailingNewlines bytes) (parseEditContent editLines).1 = false)) ∧
    ((apply_edit_operation editLines file).2 = false →
      (apply_edit_operation editLines file).1 = file) := by
  by_cases hs : (parseEditContent editLines).1.isEmpty
  · have hnil : (parseEditContent editLines).1 = [] := List.isEmpty_iff.mp hs
    have hres : apply_edit_operation editLines file = (file, false) := by
      simp [apply_edit_operation, hs]
    rw [hres]
    exact ⟨Iff.intro (fun _ => Or.inl hnil) (fun _ => rfl), fun _ => rfl⟩
  · have hsne : (parseEditContent editLines).1 ≠ [] := by
      simpa [List.isEmpty_iff] using hs
    cases file with
    | none =>
      have hres : apply_edit_operation editLines none = (none, false) := by
        simp [apply_edit_operation, hs]
      rw [hres]
      exact ⟨Iff.intro (fun _ => Or.inr (Or.inl rfl)) (fun _ => rfl), fun _ => rfl⟩
    | some bytes =>
      by_cases hbig : MAX_EDIT_FILE_SIZE < bytes.length
      · have hres : apply_edit_operation editLines (some bytes) = (some bytes, false) := by
          simp [apply_edit_operation, hs, hbig]
        rw [hres]
        exact ⟨Iff.intro (fun _ => Or.inr (Or.inr (Or.inl ⟨bytes, rfl, hbig⟩)))
          (fun _ => rfl), fun _ => rfl⟩
      · by_cases hcont :
            containsSub (stripTrailingNewlines bytes) (parseEditContent editLines).1 = true
        · have hres : apply_edit_operation editLines (some bytes) =
              (some (replaceFirst (stripTrailingNewlines bytes)
                  (parseEditContent editLines).1 (parseEditContent editLines).2 ++
                [newlineChar]), true) := by
            simp [apply_edit_operation, hs, hbig, hcont]
          rw [hres]
          constructor
          · constructor
            · intro hfalse; simp at hfalse
            · intro hrhs
              rcases hrhs with h | h | ⟨b, hb, hlen⟩ | ⟨b, hb, hc⟩
              · exact absurd h hsne
              · exact Option.noConfusion h
              · cases Option.some.inj hb; exact absurd hlen hbig
              · cases Option.some.inj hb; rw [hcont] at hc; exact Bool.noConfusion hc
          · intro hfalse; simp at hfalse
        · have hcf : containsSub (stripTrailingNewlines bytes)
              (parseEditContent editLines).1 = false := by
            simpa using hcont
          have hres : apply_edit_operation editLines (some bytes) = (some bytes, false) := by
            simp [apply_edit_operation, hs, hbig, hcf]
          rw [hres]
          exact ⟨Iff.intro
            (fun _ => Or.inr (Or.inr (Or.inr ⟨bytes, rfl, hcf⟩))) (fun _ => rfl),
            fun _ => rfl⟩

/-- Witness for C8 (amended), instantiated at a missing target file. -/
theorem apply_edit_failure_conditions_witness :
    ((apply_edit_operation [] none).2 = false ↔
      (parseEditContent []).1 = [] ∨ (none : Option (List Char)) = none ∨
      (∃ bytes, (none : Option (List Char)) = some bytes ∧
        MAX_EDIT_FILE_SIZE < bytes.length) ∨
      (∃ bytes, (none : Option (List Char)) = some bytes ∧
        containsSub (stripTrailingNewlines bytes) (parseEditContent []).1 = false)) ∧
    ((apply_edit_operation [] none).2 = false → (apply_edit_operation [] none).1 = none) :=
  apply_edit_failure_conditions [] none

/-- Counterexample for C8 as stated: the search text `A` followed by a
newline occurs verbatim in the file bytes `zA` plus newline, the file
exists, its size is far below 1 MB and the parsed search text is
nonempty — yet the edit fails, because the occurrence check runs against
the loaded content with trailing newlines stripped. -/
theorem apply_edit_fails_despite_verbatim_occurrence :
    (apply_edit_operation [strL "SEARCH:", strL "A", strL "", strL "REPLACE:", strL "x"]
      (some (strL "zA\n"))).2 = false ∧
    (apply_edit_operation [strL "SEARCH:", strL "A", strL "", strL "REPLACE:", strL "x"]
      (some (strL "zA\n"))).1 = some (strL "zA\n") ∧
    (parseEditContent [strL "SEARCH:", strL "A", strL "", strL "REPLACE:", strL "x"]).1 =
      strL "A\n" ∧
    containsSub (strL "zA\n")
      (parseEditContent [strL "SEARCH:", strL "A", strL "", strL "REPLACE:", strL "x"]).1 =
      true ∧
    (strL "zA\n").length ≤ MAX_EDIT_FILE_SIZE := by decide

/-- Claim C10 (amended): a successful edit writes the loaded content
(trailing newlines stripped) with its first search-text occurrence
replaced, plus exactly one appended newline; whenever that replaced
content does not itself end in a newline, the written file ends with
exactly one trailing newline — in particular runs of trailing newlines
of the original file are collapsed, so bytes outside the replaced
occurrence are not always preserved. -/
theorem successful_edit_written_file_shape (editLines : List (List Char))
    (bytes out : List Char)
    (h : apply_edit_operation editLines (some bytes) = (some out, true)) :
    out = replaceFirst (stripTrailingNewlines bytes) (parseEditContent editLines).1
        (parseEditContent editLines).2 ++ [newlineChar] ∧
    (trailingNewlineCount (replaceFirst (stripTrailingNewlines bytes)
        (parseEditContent editLines).1 (parseEditContent editLines).2) = 0 →
      trailingNewlineCount out = 1) := by
  by_cases hs : (parseEditContent editLines).1.isEmpty
  · have hres : apply_edit_operation editLines (some bytes) = (some bytes, false) := by
      simp [apply_edit_operation, hs]
    rw [hres] at h; simp at h
  · by_cases hbig : MAX_EDIT_FILE_SIZE < bytes.length
    · have hres : apply_edit_operation editLines (some bytes) = (some bytes, false) := by
        simp [apply_edit_operation, hs, hbig]
      rw [hres] at h; simp at h
    · by_cases hcont :
          containsSub (stripTrailingNewlines bytes) (parseEditContent editLines).1 = true
      · have hres : apply_edit_operation editLines (some bytes) =
            (some (replaceFirst (stripTrailingNewlines bytes)
                (parseEditContent editLines).1 (parseEditContent editLines).2 ++
              [newlineChar]), true) := by
          simp [apply_edit_operation, hs, hbig, hcont]
        rw [hres] at h
        have hout : replaceFirst (stripTrailingNewlines bytes)
            (parseEditContent editLines).1 (parseEditContent editLines).2 ++
            [newlineChar] = out := by
          simpa using h
        refine ⟨hout.symm, fun h0 => ?_⟩
        rw [← hout, trailingNewlineCount_append_newline, h0]
      · have hcf : containsSub (stripTrailingNewlines bytes)
            (parseEditContent editLines).1 = false := by
          simpa using hcont
        have hres : apply_edit_operation editLines (some bytes) = (some bytes, false) := by
          simp [apply_edit_operation, hs, hbig, hcf]
        rw [hres] at h; simp at h

/-- Witness for C10 (amended): the original file ends with two newlines;
the successful edit collapses them and the written file ends with
exactly one. -/
theorem successful_edit_written_file_shape_witness :
    strL "fooB\n" = replaceFirst (stripTrailingNewlines (strL "fooA\n\n"))
        (parseEditContent [strL "SEARCH:", strL "A", strL "REPLACE:", strL "B"]).1
        (parseEditContent [strL "SEARCH:", strL "A", strL "REPLACE:", strL "B"]).2 ++
      [newlineChar] ∧
    (trailingNewlineCount (replaceFirst (stripTrailingNewlines (strL "fooA\n\n"))
        (parseEditContent [strL "SEARCH:", strL "A", strL "REPLACE:", strL "B"]).1
        (parseEditContent [strL "SEARCH:", strL "A", strL "REPLACE:", strL "B"]).2) = 0 →
      trailingNewlineCount (strL "fooB\n") = 1) :=
  successful_edit_written_file_shape
    [strL "SEARCH:", strL "A", strL "REPLACE:", strL "B"]
    (strL "fooA\n\n") (strL "fooB\n") (by decide)

/-- Counterexample for C10 as stated: a successful edit whose replacement
text ends in a newline (the REPLACE section of the block ends with an
empty line) and whose match sits at the end of the content writes a file
ending in two newlines, not exactly one. -/
theorem successful_edit_two_trailing_newlines :
    apply_edit_operation [strL "SEARCH:", strL "A", strL "REPLACE:", strL "B", strL ""]
      (some (strL "fooA")) = (some (strL "fooB\n\n"), true) ∧
    trailingNewlineCount (strL "fooB\n\n") ≠ 1 := by decide

theorem closeEmit_path_ne_nil (st : PState) (op : CodeBlockOp)
    (h : closeEmit st = some op) : op.path ≠ [] := by
  unfold closeEmit at h
  split at h
  · rename_i hcond
    cases Option.some.inj h
    rw [Bool.and_eq_true] at hcond
    have h1 : (closeFile1 st).isEmpty = false := by
      have h2 := hcond.1
      cases he : (closeFile1 st).isEmpty
      · rfl
      · rw [he] at h2; simp at h2
    show closeFile1 st ≠ []
    intro hnil
    rw [hnil] at h1
    simp at h1
  · exact Option.noConfusion h

theorem stepLine_emit_path_ne_nil (st : PState) (line : List Char)
    (op : CodeBlockOp) (h : (stepLine st line).2 = some op) : op.path ≠ [] := by
  unfold stepLine at h
  split at h
  · exact closeEmit_path_ne_nil st op h
  · split at h
    · simp at h
    · split at h <;> simp at h

theorem extractFold_paths_ne_nil (ls : List (List Char)) :
    ∀ (st : PState) (acc : List CodeBlockOp), (∀ op ∈ acc, op.path ≠ []) →
      ∀ op ∈ (ls.foldl extractStep (st, acc)).2, op.path ≠ [] := by
  induction ls with
  | nil => intro st acc hacc; simpa using hacc
  | cons l ls ih =>
    intro st acc hacc
    rw [List.foldl_cons]
    refine ih _ _ ?_
    intro op hop
    simp only [extractStep] at hop
    rcases List.mem_append.mp hop with hmem | hmem
    · exact hacc op hmem
    · have hsome : (stepLine st l).2 = some op := by
        cases hs : (stepLine st l).2 with
        | none => rw [hs] at hmem; simp at hmem
        | some o =>
          rw [hs] at hmem
          simp only [Option.toList_some, List.mem_singleton] at hmem
          rw [hmem]
      exact stepLine_emit_path_ne_nil st l op hsome

/-- Claim C9: a path-less block can only receive an inferred path when
its language token is one of python/py, javascript/js, json, yaml/yml,
markdown/md; a path-less block of any other language (in particular sh,
bash, shell, or no language at all) is dropped at fence-close, and every
block the extraction loop ever hands to the executor carries a nonempty
file path. -/
theorem pathless_blocks_inference_policy :
    (∀ lang content, lang ∉ inferableLangs → inferPath lang content = none) ∧
    (∀ lang content, lang ∉ inferableLangs →
      closeEmit ⟨true, [], content, lang⟩ = none) ∧
    (∀ lines, ∀ op ∈ extractOps lines, op.path ≠ []) := by
  have hinf : ∀ lang content, lang ∉ inferableLangs → inferPath lang content = none := by
    intro lang content h
    simp only [inferableLangs, List.mem_cons, List.not_mem_nil, or_false, not_or] at h
    obtain ⟨h1, h2, h3, h4, h5, h6, h7, h8, h9⟩ := h
    simp [inferPath, h1, h2, h3, h4, h5, h6, h7, h8, h9]
  refine ⟨hinf, fun lang content h => ?_, fun lines => ?_⟩
  · simp [closeEmit, closeFile1, hinf lang content h]
  · exact extractFold_paths_ne_nil lines initPState [] (by simp)

/-- Witness for C9: a path-less `sh` block infers nothing and is
dropped; the blocks extracted from a bash-fenced response all carry
nonempty paths (here: there are none at all). -/
theorem pathless_blocks_inference_policy_witness :
    inferPath (strL "sh") (strL "echo hi") = none ∧
    closeEmit ⟨true, [], strL "echo hi", strL "sh"⟩ = none ∧
    ∀ op ∈ extractOps (splitLines (strL "```bash\nrm -rf /\n```")), op.path ≠ [] :=
  ⟨pathless_blocks_inference_policy.1 (strL "sh") (strL "echo hi") (by decide),
    pathless_blocks_inference_policy.2.1 (strL "sh") (strL "echo hi") (by decide),
    pathless_blocks_inference_policy.2.2 (splitLines (strL "```bash\nrm -rf /\n```"))⟩

/-- Claim C4: when the extraction pass finds zero usable blocks in the
(truncated) response, the pipeline performs exactly one reformat
re-submission — the call counter of the model is 1, never 0 and never
more — and when that re-submission also yields no applicable block (API
failure, the `NO_CHANGES_SPECIFIED` sentinel, an empty answer, or text
with no extractable block), the task fails (exit code 1) and the
`has_changes` output is `false`. -/
theorem zero_block_reformat_once_then_fail
    (canonEsc : List Char → Bool) (fs : FS) (response : List Char)
    (reformatResult : Option (List Char))
    (h0 : extractOps (splitLines (response.take MAX_RESPONSE_SIZE)) = [])
    (h1 : ∀ r, reformatResult = some r →
      r = NO_CHANGES_SPECIFIED ∨ r = [] ∨ extractOps (splitLines r) = []) :
    process_ai_response canonEsc fs response reformatResult = (fs, (false, 1)) ∧
    main_after_response canonEsc fs response reformatResult = (1, false) := by
  have hr1 : implement_code_blocks_from_response canonEsc fs
      (response.take MAX_RESPONSE_SIZE) = (fs, false) := by
    unfold implement_code_blocks_from_response
    rw [h0]
    rfl
  have hp : (process_text_based_response canonEsc fs reformatResult).1 = fs := by
    cases reformatResult with
    | none => rfl
    | some r =>
      rcases h1 r rfl with h | h | h
      · simp [process_text_based_response, h]
      · simp [process_text_based_response, h]
      · simp only [process_text_based_response, implement_code_blocks_from_response, h]
        split
        · rfl
        · rfl
  have hproc : process_ai_response canonEsc fs response reformatResult =
      (fs, (false, 1)) := by
    simp only [process_ai_response, hr1]
    simp [hp]
  refine ⟨hproc, ?_⟩
  simp only [main_after_response, hproc]
  simp

/-- Witness for C4: a response with no fenced block at all, answered on
re-submission by the `NO_CHANGES_SPECIFIED` sentinel: one reformat call,
failure reported, `has_changes=false`. -/
theorem zero_block_reformat_once_then_fail_witness :
    process_ai_response (fun _ => false) [] (strL "no blocks here")
      (some NO_CHANGES_SPECIFIED) = ([], (false, 1)) ∧
    main_after_response (fun _ => false) [] (strL "no blocks here")
      (some NO_CHANGES_SPECIFIED) = (1, false) :=
  zero_block_reformat_once_then_fail (fun _ => false) [] (strL "no blocks here")
    (some NO_CHANGES_SPECIFIED)
    (by rw [List.take_of_length_le (by decide)]; decide)
    (fun r h => Or.inl (Option.some.inj h).symm)

end SmartWorkplace
